import Mathlib

/-!
Verification of the WWDC / Apple Developer extractor plugin
(`yt_dlp_plugins/extractor/appledeveloper.py`).

The Python source is shallowly embedded: JSON mappings become association
lists (`List (String × _)`) whose order models CPython's insertion-ordered
dict iteration; ISO-8601 date strings are represented by their epoch value
as an `Int` (Python's `datetime.fromisoformat(...)` comparison and
`.timestamp()` agree with that ordering); in-place mutation of the parser's
topic list is modelled by explicit state passing (the old list goes in, the
new list comes out); a Python `AttributeError` is modelled as
`Except.error`.  External collaborators of the host framework (page fetch,
HLS manifest parsing, Open Graph scraping) are inputs of the embedded
functions, not re-implemented.
-/

namespace Wwdc

/-- One record of the top-level `events` JSON mapping.  `startTime` is the
epoch value of the ISO-8601 `startTime` string. -/
structure RawEvent where
  startTime : Int
  name : String
  imagesPath : String
deriving DecidableEq, Repr

/-- One record of the top-level `topics` JSON mapping. -/
structure RawTopic where
  id : String
  webPermalink : String
  title : String
deriving DecidableEq, Repr

/-- One record of the top-level `videos` JSON mapping.  `downloadHLS` is the
nested `media.downloadHLS` manifest URL; the two date fields carry the epoch
values of the corresponding ISO-8601 strings. -/
structure RawVideo where
  id : String
  eventId : String
  primaryTopicID : String
  title : String
  description : String
  downloadHLS : String
  staticContentId : String
  originalPublishingDate : Int
  contentUpdatedAt : Int
deriving DecidableEq, Repr

/-- A parsed JSON catalog document: the three top-level mappings, as
insertion-ordered association lists keyed by the JSON object keys. -/
structure Doc where
  events : List (String × RawEvent)
  topics : List (String × RawTopic)
  videos : List (String × RawVideo)
deriving DecidableEq, Repr

/-- The namedtuple `_Event = namedtuple('Event', 'id name images_base')`. -/
structure Event where
  id : String
  name : String
  images_base : String
deriving DecidableEq, Repr

/-- Epoch value of `datetime.datetime(datetime.MINYEAR, 1, 1, tzinfo=utc)`,
i.e. 0001-01-01T00:00:00+00:00, the initial value of `latest_date`. -/
def pythonMinDate : Int := -62135596800

/-- `WwdcJsonParser._get_latest_event`.  The Python loop keeps the event
record with the strictly greatest `startTime` seen so far, but the returned
namedtuple's `id` field is the loop variable `event_id` AFTER the loop, i.e.
the key of the LAST iterated event, whatever its date.  `none` models the
crash on an empty `events` mapping (or when no date exceeds the minimum). -/
def get_latest_event (events : List (String × RawEvent)) : Option Event :=
  let r := events.foldl
    (fun (acc : Option RawEvent × Int) (p : String × RawEvent) =>
      if p.2.startTime > acc.2 then (some p.2, p.2.startTime) else acc)
    (none, pythonMinDate)
  match events.getLast?, r.1 with
  | some last, some ev => some { id := last.1, name := ev.name, images_base := ev.imagesPath }
  | _, _ => none

/-- Scan of a character list split on `'/'`: `cur` is the segment being
read, `lastSeg` the last non-empty segment completed so far; the result is
the last non-empty `'/'`-separated segment of the whole input. -/
def last_segment : List Char → List Char → List Char → List Char
  | [], cur, lastSeg => if cur.isEmpty then lastSeg else cur
  | c :: cs, cur, lastSeg =>
    if c = '/' then last_segment cs [] (if cur.isEmpty then lastSeg else cur)
    else last_segment cs (cur ++ [c]) lastSeg

/-- Modelled from the spec: `url_basename` is a helper of the host framework
(yt-dlp), not code of this repository.  Per the spec the Topic slug is
"derived from a permalink field" — the last path component of the permalink
URL. -/
def url_basename (url : String) : String :=
  String.mk (last_segment url.data [] [])

/-- A normalized media entry as built by `_make_video_entry`.  The
`formats`/`subtitles` fields of the Python dict come from the external HLS
collaborator keyed by (`media.downloadHLS`, video id); the embedding records
that key in `hls_source`. -/
structure MediaEntry where
  id : String
  title : String
  hls_source : String
  categories : List String
  thumbnail : String
  description : String
  timestamp : Int
  release_timestamp : Int
deriving DecidableEq, Repr

/-- `WwdcJsonParser._make_thumbnail_url`. -/
def make_thumbnail_url (ev : Event) (content_id : String) : String :=
  ev.images_base ++ "/" ++ content_id ++ "/" ++ content_id ++ "_wide_250x141_2x.jpg"

/-- `WwdcJsonParser._make_video_entry`. -/
def make_video_entry (ev : Event) (v : RawVideo) (topic_title : String) : MediaEntry :=
  { id := v.id
    title := v.title ++ " - " ++ ev.name ++ " - Videos - Apple Developer"
    hls_source := v.downloadHLS
    categories := [ev.name, topic_title]
    thumbnail := make_thumbnail_url ev v.staticContentId
    description := v.description
    timestamp := v.originalPublishingDate
    release_timestamp := v.contentUpdatedAt }

/-- One of the per-topic dicts built by `_get_topics` (its `videos` list is
mutable in the source; here it is threaded through the state). -/
structure Topic where
  id : String
  slug : String
  title : String
  videos : List MediaEntry
deriving DecidableEq, Repr

/-- `WwdcJsonParser._get_topics`: every topic of the document, in document
order, with an empty video list. -/
def get_topics (doc : Doc) : List Topic :=
  doc.topics.map (fun p =>
    { id := p.2.id, slug := url_basename p.2.webPermalink, title := p.2.title, videos := [] })

/-- The state of a constructed `WwdcJsonParser`: the resolved active event,
the topic list (with its mutable per-topic video lists) and the raw `videos`
mapping of the document. -/
structure Catalog where
  event : Event
  topics : List Topic
  videos : List (String × RawVideo)
deriving DecidableEq, Repr

/-- `WwdcJsonParser.__init__`: parse the document, resolve the active event,
build the topic shells.  `none` models the constructor crash when
`_get_latest_event` fails. -/
def mkCatalog (doc : Doc) : Option Catalog :=
  (get_latest_event doc.events).map
    (fun ev => { event := ev, topics := get_topics doc, videos := doc.videos })

/-- `WwdcJsonParser._get_videos`: scan the raw `videos` mapping in document
order, keeping those whose `eventId` equals `event_id` and whose
`primaryTopicID` equals `topic_id`, each transformed by
`_make_video_entry`. -/
def get_videos (ev : Event) (vids : List (String × RawVideo))
    (event_id topic_id topic_title : String) : List MediaEntry :=
  vids.foldl
    (fun acc p =>
      if p.2.eventId = event_id then
        if p.2.primaryTopicID = topic_id then acc ++ [make_video_entry ev p.2 topic_title]
        else acc
      else acc)
    []

/-- An element of the Python list handed to `_parse_videos`.  In the source
that list holds either topic dicts (`[topic]`, line 52) or — by the slip on
line 55 — the whole topics *list* (`[self._topics]`).  A topic dict is
identified by its index in the catalog's topic list, which models the
in-place mutation through the shared object. -/
inductive TopicRef where
  | dict (i : Nat)
  | listObj
deriving DecidableEq, Repr

/-- One iteration of the `for topic in topics` loop of
`WwdcJsonParser._parse_videos`: `topic.get('videos')` succeeds on a dict and
populates it when its video list is empty; on a Python list object it raises
`AttributeError`. -/
def parse_videos_step (ev : Event) (vids : List (String × RawVideo))
    (topics : List Topic) : TopicRef → Except String (List Topic)
  | TopicRef.listObj => Except.error "AttributeError: 'list' object has no attribute 'get'"
  | TopicRef.dict i =>
    match topics[i]? with
    | none => Except.error "IndexError"
    | some t =>
      if t.videos.length = 0 then
        Except.ok (topics.set i
          { t with videos := t.videos ++ get_videos ev vids ev.id t.id t.title })
      else Except.ok topics

/-- `WwdcJsonParser._parse_videos`. -/
def parse_videos (ev : Event) (vids : List (String × RawVideo))
    (topics : List Topic) (args : List TopicRef) : Except String (List Topic) :=
  args.foldlM (parse_videos_step ev vids) topics

/-- Python truthiness of the `topic_slug` parameter (`if topic_slug:`):
`None` and the empty string are falsy. -/
def slugTruthy : Option String → Bool
  | none => false
  | some s => !s.isEmpty

/-- The `for topic in self._topics: if topic.get('slug') == topic_slug:`
search of `get_entries`, returning the index of the first matching topic. -/
def find_topic_idx (slug : String) : List Topic → Option Nat
  | [] => none
  | t :: ts => if t.slug = slug then some 0 else (find_topic_idx slug ts).map (· + 1)

/-- `WwdcJsonParser.get_entries`.  The first component is the returned value
(`Option` distinguishes a returned list from Python `None`; `Except.error`
models an uncaught exception), the second the parser state after the call.
When `topic_slug` is truthy the first matching topic is populated via
`_parse_videos([topic])` and its video list returned; otherwise the source
calls `_parse_videos([self._topics])` — the topics *list* as the single
element — and would then concatenate all topics' videos. -/
def get_entries (c : Catalog) (slug? : Option String) :
    Except String (Option (List MediaEntry)) × Catalog :=
  if slugTruthy slug? then
    match find_topic_idx (slug?.getD "") c.topics with
    | some i =>
      match parse_videos c.event c.videos c.topics [TopicRef.dict i] with
      | Except.ok newTopics =>
        match newTopics[i]? with
        | some t => (Except.ok (some t.videos), { c with topics := newTopics })
        | none => (Except.error "IndexError", c)
      | Except.error e => (Except.error e, c)
    | none => (Except.ok none, c)
  else
    match parse_videos c.event c.videos c.topics [TopicRef.listObj] with
    | Except.ok newTopics =>
      (Except.ok (some (newTopics.foldl (fun acc t => acc ++ t.videos) [])),
        { c with topics := newTopics })
    | Except.error e => (Except.error e, c)

/-- `WwdcJsonParser.get_topic_title`'s `topic_slug` argument as the dynamic
Python value it receives: a string, or — as on line 273 of the source — the
bound method object `self.playlist_id`. -/
inductive PySlugArg where
  | str (s : String)
  | boundMethod
deriving DecidableEq, Repr

/-- Python truthiness of that argument: a bound method object is truthy. -/
def pyTruthy : PySlugArg → Bool
  | PySlugArg.str s => !s.isEmpty
  | PySlugArg.boundMethod => true

/-- Python `==` between a topic's slug string and the argument: a string
never equals a bound method object. -/
def pyEqStr (s : String) : PySlugArg → Bool
  | PySlugArg.str t => s == t
  | PySlugArg.boundMethod => false

/-- `WwdcJsonParser.get_topic_title`. -/
def get_topic_title (topics : List Topic) (arg : PySlugArg) : Option String :=
  if pyTruthy arg then (topics.find? (fun t => pyEqStr t.slug arg)).map Topic.title
  else none

/-- `AppleWwdcTopicsIE.playlist_title`: the source passes the bound method
`self.playlist_id` (not `self.playlist_id(url)`) as the slug argument. -/
def topics_playlist_title (c : Catalog) : Option String :=
  get_topic_title c.topics PySlugArg.boundMethod

/-- `AppleWwdcTopicsIE._real_extract`, given the already-constructed parser
state and the `topic` URL group: the playlist's entries value, id and
title. -/
def topics_real_extract (c : Catalog) (topic : String) :
    Except String (Option (List MediaEntry)) × String × Option String :=
  ((get_entries c (some topic)).1, topic, topics_playlist_title c)

/-- One stream-format descriptor returned by the external HLS collaborator,
as a Python dict: an `Option` field is `none` when the key is absent (so
`some "none"` is the key present with the explicit string value `'none'`). -/
structure StreamFormat where
  vcodec : Option String
  acodec : Option String
  ext : Option String
  url : String
  tbr : Int
deriving DecidableEq, Repr

/-- The per-format fix-up loop of `AppleDeveloperIE._real_extract` (lines
167–174): `format.get('vcodec') == 'none' and 'acodec' not in format`
triggers `format.update({'ext': 'm4a', 'acodec': 'aac'})`. -/
def fixup_format (f : StreamFormat) : StreamFormat :=
  if f.vcodec = some "none" ∧ f.acodec = none then
    { f with ext := some "m4a", acodec := some "aac" }
  else f

/-- Python truthiness of `video_url` as tested by `if not video_url:` —
`None` and the empty string are falsy. -/
def og_falsy : Option String → Bool
  | none => true
  | some s => s.isEmpty

/-- The inputs of `AppleDeveloperIE._real_extract` supplied by external
collaborators: the result of `_og_search_video_url(webpage, default=None)`
and the formats the HLS collaborator returns for the manifest URL. -/
structure VideoPage where
  ogVideoUrl : Option String
  hlsFormats : List StreamFormat
deriving DecidableEq, Repr

/-- The stream-resolution part of `AppleDeveloperIE._real_extract`: raise
`ExtractorError('Video is unavailable', expected=True)` when the og:video
lookup is falsy, otherwise run the format fix-up over the collaborator's
formats. -/
def apple_developer_extract (page : VideoPage) : Except String (List StreamFormat) :=
  if og_falsy page.ogVideoUrl then Except.error "Video is unavailable"
  else Except.ok (page.hlsFormats.map fixup_format)

/-- `_AppleWwdcBaseIE._BASE_URL`. -/
def BASE_URL : String := "https://developer.apple.com"

/-- Whether the second character list is a prefix of the first. -/
def starts_with_chars : List Char → List Char → Bool
  | _, [] => true
  | [], _ :: _ => false
  | c :: cs, p :: ps => (c = p) && starts_with_chars cs ps

/-- Prefix test on strings. -/
def starts_with (s pre : String) : Bool := starts_with_chars s.data pre.data

/-- Modelled from the spec: yt-dlp's `urljoin` is a helper of the host
framework, not code of this repository.  Per the spec, "each captured path
is joined against a fixed base URL following standard relative-URL
resolution (absolute captured URLs pass through unchanged)". -/
def urljoin (base path : String) : String :=
  if starts_with path "http://" || starts_with path "https://" then path
  else if starts_with path "/" then base ++ path
  else base ++ "/" ++ path

/-- The result of `InfoExtractor.url_result(video_url)`: a pending-resolution
playlist entry holding just the URL. -/
structure UrlResult where
  url : String
deriving DecidableEq, Repr

/-- `dict.fromkeys` over a list of URLs, read back with `list(...)`: keeps
the first occurrence of each key, in insertion order (`seen` is the set of
keys already inserted). -/
def fromkeysAux (seen : List String) : List String → List String
  | [] => []
  | x :: xs => if x ∈ seen then fromkeysAux seen xs else x :: fromkeysAux (x :: seen) xs

/-- `list(dict.fromkeys(video_urls))`. -/
def fromkeys (l : List String) : List String := fromkeysAux [] l

/-- `_AppleWwdcBaseIE.extract_with_regular_expression`, with the output of
`re.findall(regexp, webpage)` — the list of captured groups in document
order — as its input: join each against the base URL, de-duplicate keeping
insertion order, wrap each as a pending-resolution entry. -/
def extract_with_regular_expression (captures : List String) : List UrlResult :=
  ((fromkeys (captures.map (fun path => urljoin BASE_URL path))).map (fun u => { url := u }))

/-! ### Concrete sample data used by the closed theorems and witnesses -/

/-- Projection used to state playlist sizes: the number of entries of a
successful, non-`None` `get_entries` result. -/
def entry_count : Except String (Option (List MediaEntry)) → Option Nat
  | Except.ok (some l) => some l.length
  | _ => none

/-- The document-order scan a topic is populated with: every raw video of
the document whose `eventId` is the active event's id and whose
`primaryTopicID` is the topic's id, transformed by the entry builder. -/
def matching_entries (ev : Event) (vids : List (String × RawVideo)) (t : Topic) :
    List MediaEntry :=
  (vids.filter
    (fun p => decide (p.2.eventId = ev.id) && decide (p.2.primaryTopicID = t.id))).map
    (fun p => make_video_entry ev p.2 t.title)

/-- An `events` mapping whose first entry has the maximal start timestamp
and whose second (and last-iterated) entry is older. -/
def c1_events : List (String × RawEvent) :=
  [("e1", { startTime := 1685919600, name := "WWDC23", imagesPath := "https://img/new" }),
   ("e2", { startTime := 1577836800, name := "OldConf", imagesPath := "https://img/old" })]

def c3_event : RawEvent :=
  { startTime := 1685919600, name := "WWDC23", imagesPath := "https://img" }

def c3_topic : RawTopic :=
  { id := "topic-acc"
    webPermalink := "https://developer.apple.com/wwdc23/topics/accessibility-inclusion/"
    title := "Accessibility & Inclusion - Topics - WWDC23" }

/-- A raw video tagged to the active event and to the sample topic. -/
def c3_vid (n : Nat) : String × RawVideo :=
  (toString n,
    { id := toString n, eventId := "wwdc23", primaryTopicID := "topic-acc"
      title := "V" ++ toString n, description := "d", downloadHLS := "h"
      staticContentId := "s", originalPublishingDate := 1, contentUpdatedAt := 2 })

/-- A raw video of the active event tagged to a different topic. -/
def c3_other_vid : String × RawVideo :=
  ("99",
    { id := "99", eventId := "wwdc23", primaryTopicID := "topic-other"
      title := "V99", description := "d", downloadHLS := "h"
      staticContentId := "s", originalPublishingDate := 1, contentUpdatedAt := 2 })

/-- A catalog document with one event, the accessibility topic and exactly
seven videos tagged to that topic under the active event. -/
def c3_doc : Doc :=
  { events := [("wwdc23", c3_event)]
    topics := [("k1", c3_topic)]
    videos := [c3_vid 1, c3_vid 2, c3_vid 3, c3_other_vid, c3_vid 4, c3_vid 5,
               c3_vid 6, c3_vid 7] }

/-- The parser state `mkCatalog` builds from `c3_doc`. -/
def c3_catalog : Catalog :=
  { event := { id := "wwdc23", name := "WWDC23", images_base := "https://img" }
    topics := [{ id := "topic-acc", slug := "accessibility-inclusion"
                 title := "Accessibility & Inclusion - Topics - WWDC23", videos := [] }]
    videos := [c3_vid 1, c3_vid 2, c3_vid 3, c3_other_vid, c3_vid 4, c3_vid 5,
               c3_vid 6, c3_vid 7] }

def wEvent : Event := { id := "ev1", name := "EV", images_base := "https://img" }

def wVidA : RawVideo :=
  { id := "v1", eventId := "ev1", primaryTopicID := "tA", title := "VT"
    description := "vd", downloadHLS := "https://hls", staticContentId := "sc"
    originalPublishingDate := 10, contentUpdatedAt := 20 }

def wVids : List (String × RawVideo) := [("v1", wVidA)]

def wTopicA : Topic := { id := "tA", slug := "a", title := "A", videos := [] }

def wTopicAFull : Topic :=
  { wTopicA with videos := [make_video_entry wEvent wVidA "A"] }

/-- A catalog whose only topic is already populated. -/
def wCatalogFull : Catalog := { event := wEvent, topics := [wTopicAFull], videos := wVids }

/-- A catalog whose only topic exists but has zero matching raw videos. -/
def wCatalogNoVids : Catalog := { event := wEvent, topics := [wTopicA], videos := [] }

def wCaps : List String := ["a", "b", "a"]

def wFmtAudio : StreamFormat :=
  { vcodec := some "none", acodec := none, ext := some "mp4", url := "u", tbr := 5 }

def wFmtVideo : StreamFormat :=
  { vcodec := some "avc1", acodec := none, ext := some "mp4", url := "u", tbr := 5 }

def wFmtExplicitNone : StreamFormat :=
  { vcodec := some "none", acodec := some "none", ext := some "mp4", url := "u", tbr := 5 }

def wPage : VideoPage := { ogVideoUrl := some "https://m3u8", hlsFormats := [wFmtAudio] }

def wPageNone : VideoPage := { ogVideoUrl := none, hlsFormats := [] }

/-! ### Helper lemmas about the embedded catalog parser -/

theorem isEmpty_false_of_ne (s : String) (h : s ≠ "") : s.isEmpty = false := by
  rw [Bool.eq_false_iff]
  intro he
  exact h ((String.isEmpty_iff s).mp he)

/-- A filter-and-map description of the accumulating loop of
`_get_videos`. -/
theorem get_videos_foldl (ev : Event) (eid tid ttl : String)
    (vids : List (String × RawVideo)) :
    ∀ acc : List MediaEntry,
      vids.foldl
        (fun acc p =>
          if p.2.eventId = eid then
            if p.2.primaryTopicID = tid then acc ++ [make_video_entry ev p.2 ttl]
            else acc
          else acc)
        acc =
      acc ++
        (vids.filter
          (fun p => decide (p.2.eventId = eid) && decide (p.2.primaryTopicID = tid))).map
          (fun p => make_video_entry ev p.2 ttl) := by
  induction vids with
  | nil => intro acc; simp
  | cons p ps ih =>
    intro acc
    by_cases h1 : p.2.eventId = eid
    · by_cases h2 : p.2.primaryTopicID = tid
      · simp [List.foldl_cons, h1, h2, ih, List.filter_cons]
      · simp [List.foldl_cons, h1, h2, ih, List.filter_cons]
    · simp [List.foldl_cons, h1, ih, List.filter_cons]

/-- `_get_videos` is exactly the document-order filter of the raw videos by
event id and primary topic id, mapped through the entry builder. -/
theorem get_videos_eq (ev : Event) (vids : List (String × RawVideo))
    (eid tid ttl : String) :
    get_videos ev vids eid tid ttl =
      (vids.filter
        (fun p => decide (p.2.eventId = eid) && decide (p.2.primaryTopicID = tid))).map
        (fun p => make_video_entry ev p.2 ttl) := by
  simpa [get_videos] using get_videos_foldl ev eid tid ttl vids []

/-- When no raw video matches, `_get_videos` returns the empty list. -/
theorem get_videos_eq_nil (ev : Event) (vids : List (String × RawVideo))
    (eid tid ttl : String)
    (h : ∀ p ∈ vids, ¬(p.2.eventId = eid ∧ p.2.primaryTopicID = tid)) :
    get_videos ev vids eid tid ttl = [] := by
  rw [get_videos_eq]
  have : vids.filter
      (fun p => decide (p.2.eventId = eid) && decide (p.2.primaryTopicID = tid)) = [] := by
    rw [List.filter_eq_nil_iff]
    intro p hp
    have := h p hp
    simp only [Bool.and_eq_true, decide_eq_true_eq]
    tauto
  rw [this]
  simp

theorem find_topic_idx_eq_none (slug : String) (ts : List Topic) :
    find_topic_idx slug ts = none ↔ ∀ t ∈ ts, t.slug ≠ slug := by
  induction ts with
  | nil => simp [find_topic_idx]
  | cons t ts ih =>
    by_cases h : t.slug = slug
    · simp [find_topic_idx, h]
    · simp [find_topic_idx, h, ih]

theorem find_topic_idx_some (slug : String) (ts : List Topic) (i : Nat)
    (h : find_topic_idx slug ts = some i) :
    ∃ t, ts[i]? = some t ∧ t.slug = slug := by
  induction ts generalizing i with
  | nil => simp [find_topic_idx] at h
  | cons t ts ih =>
    by_cases ht : t.slug = slug
    · simp only [find_topic_idx, if_pos ht, Option.some.injEq] at h
      subst h
      exact ⟨t, by simp, ht⟩
    · simp only [find_topic_idx, if_neg ht, Option.map_eq_some'] at h
      obtain ⟨j, hj, rfl⟩ := h
      obtain ⟨u, hu, hslug⟩ := ih j hj
      exact ⟨u, by simpa using hu, hslug⟩

/-- `get_entries` with a truthy slug that matches no topic returns Python
`None` and leaves the parser state untouched. -/
theorem get_entries_of_no_match (c : Catalog) (slug : String) (hs : slug ≠ "")
    (h : ∀ t ∈ c.topics, t.slug ≠ slug) :
    get_entries c (some slug) = (Except.ok none, c) := by
  have hfind : find_topic_idx slug c.topics = none :=
    (find_topic_idx_eq_none slug c.topics).mpr h
  simp [get_entries, slugTruthy, isEmpty_false_of_ne slug hs, hfind]

/-- `get_entries` with a truthy slug whose first matching topic has an empty
video list populates exactly that topic with the `_get_videos` scan and
returns the populated list. -/
theorem get_entries_of_match_empty (c : Catalog) (slug : String) (i : Nat) (t : Topic)
    (hs : slug ≠ "") (hfind : find_topic_idx slug c.topics = some i)
    (ht : c.topics[i]? = some t) (hv : t.videos = []) :
    get_entries c (some slug) =
      (Except.ok (some (get_videos c.event c.videos c.event.id t.id t.title)),
        { c with
            topics := c.topics.set i
              { t with videos := get_videos c.event c.videos c.event.id t.id t.title } }) := by
  obtain ⟨hlt, -⟩ := List.getElem?_eq_some_iff.mp ht
  have h1 : slugTruthy (some slug) = true := by
    simp [slugTruthy, isEmpty_false_of_ne slug hs]
  have hpv : parse_videos c.event c.videos c.topics [TopicRef.dict i] =
      Except.ok (c.topics.set i
        { t with videos := get_videos c.event c.videos c.event.id t.id t.title }) := by
    simp [parse_videos, List.foldlM, parse_videos_step, ht, hv]
  simp [get_entries, h1, hfind, hpv, List.getElem?_set_self hlt]

/-- `get_entries` with a truthy slug whose first matching topic already has a
non-empty video list returns that list unchanged and keeps the state. -/
theorem get_entries_of_match_nonempty (c : Catalog) (slug : String) (i : Nat) (t : Topic)
    (hs : slug ≠ "") (hfind : find_topic_idx slug c.topics = some i)
    (ht : c.topics[i]? = some t) (hv : t.videos ≠ []) :
    get_entries c (some slug) = (Except.ok (some t.videos), c) := by
  have h1 : slugTruthy (some slug) = true := by
    simp [slugTruthy, isEmpty_false_of_ne slug hs]
  have hpv : parse_videos c.event c.videos c.topics [TopicRef.dict i] =
      Except.ok c.topics := by
    simp [parse_videos, List.foldlM, parse_videos_step, ht, List.length_eq_zero, hv]
  simp [get_entries, h1, hfind, hpv, ht]

/-! ### Claim theorems -/

/-- C1: the claim says the resolved active Event record (identifier, display
name, thumbnail images base) is that of the event with the maximum start
timestamp.  On `c1_events` the maximum-timestamp event is `"e1"`, yet the
code returns the identifier of the last-iterated event `"e2"` (the loop
variable `event_id` leaks out of the `for` loop on line 78) together with
`"e1"`'s name and images base, so the resolved record is NOT that of the
maximal event. -/
theorem get_latest_event_id_from_last_iterated :
    get_latest_event c1_events =
      some { id := "e2", name := "WWDC23", images_base := "https://img/new" } := by
  decide

/-- C2: the claim says `get_entries` with the topic-slug argument absent
lazily populates every topic and returns the concatenation of all topics'
videos.  In fact the call ALWAYS raises `AttributeError` and changes no
state: line 55 passes `[self._topics]` — a one-element list holding the
topics *list* — to `_parse_videos`, which calls `.get` on that element. -/
theorem get_entries_no_slug_always_crashes (c : Catalog) :
    get_entries c none =
      (Except.error "AttributeError: 'list' object has no attribute 'get'", c) := rfl

/-- C3: on a catalog with seven videos tagged to the `accessibility-inclusion`
topic under the active event, the topic extraction does produce seven media
entries, but the playlist title is Python `None`, not
`"Accessibility & Inclusion - Topics - WWDC23"`: `playlist_title` (line 273)
passes the bound method `self.playlist_id` instead of `self.playlist_id(url)`
to `get_topic_title`, and a string slug never equals a bound method. -/
theorem topics_playlist_seven_entries_title_none :
    mkCatalog c3_doc = some c3_catalog ∧
    entry_count (topics_real_extract c3_catalog "accessibility-inclusion").1 = some 7 ∧
    (topics_real_extract c3_catalog "accessibility-inclusion").2.2 = none := by
  refine ⟨by decide, by decide, by decide⟩

/-- C4: `get_entries` with a given slug returns the empty sequence (not
Python `None`) when a topic with that slug exists but zero raw videos match
it under the active event, and returns `None` when no topic with that slug
exists. -/
theorem get_entries_empty_list_vs_absent (c : Catalog) (slug : String) (hs : slug ≠ "") :
    ((∀ t ∈ c.topics, t.slug ≠ slug) → (get_entries c (some slug)).1 = Except.ok none) ∧
    (∀ i t, find_topic_idx slug c.topics = some i → c.topics[i]? = some t →
      t.videos = [] →
      (∀ p ∈ c.videos, ¬(p.2.eventId = c.event.id ∧ p.2.primaryTopicID = t.id)) →
      (get_entries c (some slug)).1 = Except.ok (some [])) := by
  constructor
  · intro h
    rw [get_entries_of_no_match c slug hs h]
  · intro i t hfind ht hv hnone
    rw [get_entries_of_match_empty c slug i t hs hfind ht hv]
    simp [get_videos_eq_nil _ _ _ _ _ hnone]

/-- Witness for C4 on a concrete catalog: slug `"a"` exists with zero
matching raw videos and yields the empty list; slug `"nope"` matches no
topic and yields Python `None`. -/
theorem get_entries_empty_list_vs_absent_witness :
    (get_entries wCatalogNoVids (some "nope")).1 = Except.ok none ∧
    (get_entries wCatalogNoVids (some "a")).1 = Except.ok (some []) := by
  constructor
  · exact (get_entries_empty_list_vs_absent wCatalogNoVids "nope" (by decide)).1 (by decide)
  · exact (get_entries_empty_list_vs_absent wCatalogNoVids "a" (by decide)).2 0 wTopicA
      (by decide) (by decide) (by decide) (by decide)

/-- C10: `get_entries` with a non-empty slug matching no topic returns
Python `None` and the whole parser state — every topic's video list
included — is exactly as before the call. -/
theorem get_entries_no_match_keeps_state (c : Catalog) (slug : String)
    (hs : slug ≠ "") (h : ∀ t ∈ c.topics, t.slug ≠ slug) :
    get_entries c (some slug) = (Except.ok none, c) :=
  get_entries_of_no_match c slug hs h

/-- Witness for C10 on a concrete catalog. -/
theorem get_entries_no_match_keeps_state_witness :
    get_entries wCatalogFull (some "nope") = (Except.ok none, wCatalogFull) :=
  get_entries_no_match_keeps_state wCatalogFull "nope" (by decide) (by decide)

/-- C5: `_parse_videos` populates a topic exactly when its video list is
empty, with the document-order scan of the raw videos matching the active
event's id and the topic's id (built by the entry builder); a topic whose
list is already non-empty is left untouched, and no `get_entries` call ever
changes a topic whose video list is non-empty. -/
theorem lazy_population_invariant (ev : Event) (vids : List (String × RawVideo))
    (topics : List Topic) (i : Nat) (t : Topic) (ht : topics[i]? = some t) :
    (t.videos = [] →
      parse_videos ev vids topics [TopicRef.dict i] =
        Except.ok (topics.set i { t with videos := matching_entries ev vids t })) ∧
    (t.videos ≠ [] → parse_videos ev vids topics [TopicRef.dict i] = Except.ok topics) ∧
    (∀ (c : Catalog) (slug? : Option String), c.topics[i]? = some t → t.videos ≠ [] →
      ((get_entries c slug?).2).topics[i]? = some t) := by
  refine ⟨?_, ?_, ?_⟩
  · intro hv
    simp [parse_videos, List.foldlM, parse_videos_step, ht, hv, get_videos_eq,
      matching_entries]
  · intro hv
    simp [parse_videos, List.foldlM, parse_videos_step, ht, List.length_eq_zero, hv]
  · intro c slug? hc hv
    cases hslug : slugTruthy slug? with
    | false =>
      simp [get_entries, hslug, parse_videos, List.foldlM, parse_videos_step, hc]
    | true =>
      cases hfind : find_topic_idx (slug?.getD "") c.topics with
      | none => simp [get_entries, hslug, hfind, hc]
      | some j =>
        cases hj : c.topics[j]? with
        | none =>
          simp [get_entries, hslug, hfind, parse_videos, List.foldlM, parse_videos_step,
            hj, hc]
        | some tj =>
          obtain ⟨hjlt, -⟩ := List.getElem?_eq_some_iff.mp hj
          by_cases hvj : tj.videos = []
          · have hij : i ≠ j := by
              intro hij
              subst hij
              rw [hc] at hj
              cases hj
              exact hv hvj
            simp [get_entries, hslug, hfind, parse_videos, List.foldlM, parse_videos_step,
              hj, hvj, List.getElem?_set_self hjlt, List.getElem?_set_ne (Ne.symm hij), hc]
          · simp [get_entries, hslug, hfind, parse_videos, List.foldlM, parse_videos_step,
              hj, List.length_eq_zero, hvj, hc]

/-- Witness for C5: a fresh topic is populated by the matching scan, an
already-populated topic is left untouched by `_parse_videos` and by a
`get_entries` call. -/
theorem lazy_population_invariant_witness :
    (parse_videos wEvent wVids [wTopicA] [TopicRef.dict 0] =
      Except.ok ([wTopicA].set 0 { wTopicA with videos := matching_entries wEvent wVids wTopicA })) ∧
    (parse_videos wEvent wVids [wTopicAFull] [TopicRef.dict 0] = Except.ok [wTopicAFull]) ∧
    ((get_entries wCatalogFull (some "a")).2).topics[0]? = some wTopicAFull := by
  refine ⟨?_, ?_, ?_⟩
  · exact (lazy_population_invariant wEvent wVids [wTopicA] 0 wTopicA (by decide)).1 rfl
  · exact (lazy_population_invariant wEvent wVids [wTopicAFull] 0 wTopicAFull
      (by decide)).2.1 (by decide)
  · exact (lazy_population_invariant wEvent wVids [wTopicAFull] 0 wTopicAFull
      (by decide)).2.2 wCatalogFull (some "a") (by decide) (by decide)

/-! ### Lemmas about the link harvester's deduplication -/

theorem fromkeysAux_mem (a : String) (l : List String) :
    ∀ seen : List String, a ∈ fromkeysAux seen l ↔ a ∈ l ∧ a ∉ seen := by
  induction l with
  | nil => intro seen; simp [fromkeysAux]
  | cons x xs ih =>
    intro seen
    by_cases hx : x ∈ seen
    · rw [fromkeysAux, if_pos hx, ih]
      constructor
      · rintro ⟨hm, hns⟩
        exact ⟨List.mem_cons_of_mem _ hm, hns⟩
      · rintro ⟨hm, hns⟩
        rcases List.mem_cons.mp hm with rfl | hm
        · exact absurd hx hns
        · exact ⟨hm, hns⟩
    · rw [fromkeysAux, if_neg hx]
      by_cases hax : a = x
      · subst hax
        simp [hx]
      · simp only [List.mem_cons, hax, false_or, ih]

theorem fromkeysAux_nodup (l : List String) :
    ∀ seen : List String, (fromkeysAux seen l).Nodup := by
  induction l with
  | nil => intro seen; simp [fromkeysAux]
  | cons x xs ih =>
    intro seen
    by_cases hx : x ∈ seen
    · rw [fromkeysAux, if_pos hx]
      exact ih seen
    · rw [fromkeysAux, if_neg hx]
      refine List.nodup_cons.mpr ⟨?_, ih (x :: seen)⟩
      intro hmem
      exact ((fromkeysAux_mem x xs (x :: seen)).mp hmem).2 (List.mem_cons_self x seen)

/-- The elements kept by the deduplication are ordered by their index in the
scanned list. -/
theorem fromkeysAux_pairwise (l : List String) :
    ∀ seen : List String,
      (fromkeysAux seen l).Pairwise (fun a b => l.indexOf a < l.indexOf b) := by
  induction l with
  | nil => intro seen; simp [fromkeysAux]
  | cons x xs ih =>
    intro seen
    by_cases hx : x ∈ seen
    · rw [fromkeysAux, if_pos hx]
      refine (ih seen).imp_of_mem ?_
      intro a b ha hb hab
      obtain ⟨hma, hsa⟩ := (fromkeysAux_mem a xs seen).mp ha
      obtain ⟨hmb, hsb⟩ := (fromkeysAux_mem b xs seen).mp hb
      have hax : x ≠ a := fun h => hsa (h ▸ hx)
      have hbx : x ≠ b := fun h => hsb (h ▸ hx)
      rw [List.indexOf_cons_ne _ hax, List.indexOf_cons_ne _ hbx]
      exact Nat.succ_lt_succ hab
    · rw [fromkeysAux, if_neg hx]
      refine List.pairwise_cons.mpr ⟨?_, ?_⟩
      · intro b hb
        obtain ⟨hmb, hsb⟩ := (fromkeysAux_mem b xs (x :: seen)).mp hb
        have hbx : x ≠ b := fun h => hsb (h ▸ List.mem_cons_self x seen)
        rw [List.indexOf_cons_self, List.indexOf_cons_ne _ hbx]
        exact Nat.succ_pos _
      · refine (ih (x :: seen)).imp_of_mem ?_
        intro a b ha hb hab
        obtain ⟨hma, hsa⟩ := (fromkeysAux_mem a xs (x :: seen)).mp ha
        obtain ⟨hmb, hsb⟩ := (fromkeysAux_mem b xs (x :: seen)).mp hb
        have hax : x ≠ a := fun h => hsa (h ▸ List.mem_cons_self x seen)
        have hbx : x ≠ b := fun h => hsb (h ▸ List.mem_cons_self x seen)
        rw [List.indexOf_cons_ne _ hax, List.indexOf_cons_ne _ hbx]
        exact Nat.succ_lt_succ hab

theorem fromkeys_mem (l : List String) (a : String) : a ∈ fromkeys l ↔ a ∈ l := by
  simpa [fromkeys] using fromkeysAux_mem a l []

theorem fromkeys_length (l : List String) : (fromkeys l).length = l.dedup.length := by
  have hnd : (fromkeys l).Nodup := fromkeysAux_nodup l []
  have hfin : (fromkeys l).toFinset = l.toFinset := by
    ext a
    simp [List.mem_toFinset, fromkeys_mem]
  calc (fromkeys l).length = (fromkeys l).dedup.length := by rw [hnd.dedup]
    _ = (fromkeys l).toFinset.card := (List.card_toFinset _).symm
    _ = l.toFinset.card := by rw [hfin]
    _ = l.dedup.length := List.card_toFinset _

/-- C6: when the pattern's captures resolve to `m` distinct URLs (in any
multiplicity), the link harvester returns exactly `m` entries, one per
distinct resolved URL, ordered by each URL's first occurrence in the
document (insertion-ordered deduplication, no re-sorting). -/
theorem harvester_distinct_first_occurrence (captures : List String) (m : Nat)
    (hm : m = ((captures.map (urljoin BASE_URL)).dedup).length) :
    (extract_with_regular_expression captures).length = m ∧
    ((extract_with_regular_expression captures).map UrlResult.url).Nodup ∧
    (∀ u, u ∈ (extract_with_regular_expression captures).map UrlResult.url ↔
      u ∈ captures.map (urljoin BASE_URL)) ∧
    ((extract_with_regular_expression captures).map UrlResult.url).Pairwise
      (fun a b => (captures.map (urljoin BASE_URL)).indexOf a <
        (captures.map (urljoin BASE_URL)).indexOf b) := by
  have hmap : (extract_with_regular_expression captures).map UrlResult.url =
      fromkeys (captures.map (urljoin BASE_URL)) := by
    unfold extract_with_regular_expression
    rw [List.map_map]
    exact List.map_id _
  refine ⟨?_, ?_, ?_, ?_⟩
  · have : ((extract_with_regular_expression captures).map UrlResult.url).length =
        (fromkeys (captures.map (urljoin BASE_URL))).length := by rw [hmap]
    rw [List.length_map] at this
    rw [this, fromkeys_length, hm]
  · rw [hmap]
    exact fromkeysAux_nodup _ []
  · intro u
    rw [hmap]
    exact fromkeys_mem _ u
  · rw [hmap]
    exact fromkeysAux_pairwise _ []

/-- Witness for C6 on concrete captures: three captures, two of them equal,
yield exactly two de-duplicated entries. -/
theorem harvester_distinct_first_occurrence_witness :
    (extract_with_regular_expression wCaps).length = 2 ∧
    ((extract_with_regular_expression wCaps).map UrlResult.url).Nodup := by
  have h := harvester_distinct_first_occurrence wCaps 2 (by decide)
  exact ⟨h.1, h.2.1⟩

/-- C7: a stream format reporting video codec `'none'` and missing the
`acodec` key is rewritten to an audio-only entry with container `m4a` and
codec `aac`; a format with a detected (non-`'none'`) video codec is left
unmodified whatever its audio-codec field. -/
theorem fixup_format_audio_only (f : StreamFormat) :
    (f.vcodec = some "none" → f.acodec = none →
      fixup_format f = { f with ext := some "m4a", acodec := some "aac" }) ∧
    (∀ cdc, f.vcodec = some cdc → cdc ≠ "none" → fixup_format f = f) := by
  constructor
  · intro hv ha
    simp [fixup_format, hv, ha]
  · intro cdc hv hne
    have h : ¬(f.vcodec = some "none" ∧ f.acodec = none) := by
      rintro ⟨h1, -⟩
      rw [hv] at h1
      exact hne (Option.some.inj h1)
    simp [fixup_format, h]

/-- Witness for C7: a concrete keyless-audio format becomes m4a/aac, a
concrete format with video codec `avc1` is unchanged. -/
theorem fixup_format_audio_only_witness :
    fixup_format wFmtAudio = { wFmtAudio with ext := some "m4a", acodec := some "aac" } ∧
    fixup_format wFmtVideo = wFmtVideo :=
  ⟨(fixup_format_audio_only wFmtAudio).1 rfl rfl,
   (fixup_format_audio_only wFmtVideo).2 "avc1" rfl (by decide)⟩

/-- C8: the user-facing `Video is unavailable` error is raised exactly when
the og:video lookup yields no manifest URL (Python `None`, or the falsy
empty string, which is no URL); when a non-empty manifest URL is found no
such error is raised and extraction proceeds to the format fix-up. -/
theorem unavailable_iff_no_og_url (page : VideoPage) :
    (apple_developer_extract page = Except.error "Video is unavailable" ↔
      (page.ogVideoUrl = none ∨ page.ogVideoUrl = some "")) ∧
    (∀ u, page.ogVideoUrl = some u → u ≠ "" →
      apple_developer_extract page = Except.ok (page.hlsFormats.map fixup_format)) := by
  have hproceed : ∀ u, page.ogVideoUrl = some u → u ≠ "" →
      apple_developer_extract page = Except.ok (page.hlsFormats.map fixup_format) := by
    intro u hu hne
    have hf : og_falsy page.ogVideoUrl = false := by
      rw [hu]
      simpa [og_falsy] using isEmpty_false_of_ne u hne
    simp [apple_developer_extract, hf]
  refine ⟨⟨?_, ?_⟩, hproceed⟩
  · intro h
    by_contra hc
    push_neg at hc
    obtain ⟨h1, h2⟩ := hc
    cases hog : page.ogVideoUrl with
    | none => exact h1 hog
    | some u =>
      have hne : u ≠ "" := by
        intro he
        subst he
        exact h2 hog
      rw [hproceed u hog hne] at h
      exact Except.noConfusion h
  · intro h
    rcases h with h | h
    · simp [apple_developer_extract, og_falsy, h]
    · have hf : og_falsy page.ogVideoUrl = true := by
        rw [h]
        decide
      simp [apple_developer_extract, hf]

/-- Witness for C8: a page with no og:video URL raises the expected error,
a page with a manifest URL proceeds to the fixed-up formats. -/
theorem unavailable_iff_no_og_url_witness :
    apple_developer_extract wPageNone = Except.error "Video is unavailable" ∧
    apple_developer_extract wPage = Except.ok (wPage.hlsFormats.map fixup_format) :=
  ⟨(unavailable_iff_no_og_url wPageNone).1.mpr (Or.inl rfl),
   (unavailable_iff_no_og_url wPage).2 "https://m3u8" rfl (by decide)⟩

/-- C9: the audio-only fix-up fires only when the `acodec` key is entirely
absent: a format whose video codec is `'none'` but whose audio-codec field
carries any explicit value — including the explicit string `'none'` — is
left completely unchanged. -/
theorem fixup_format_explicit_acodec_unchanged (f : StreamFormat) (a : String)
    (hv : f.vcodec = some "none") (ha : f.acodec = some a) :
    fixup_format f = f := by
  have h : ¬(f.vcodec = some "none" ∧ f.acodec = none) := by
    rintro ⟨-, h2⟩
    rw [ha] at h2
    exact Option.noConfusion h2
  simp [fixup_format, h]

/-- Witness for C9: the explicit value `'none'` in `acodec` suppresses the
fix-up. -/
theorem fixup_format_explicit_acodec_unchanged_witness :
    fixup_format wFmtExplicitNone = wFmtExplicitNone :=
  fixup_format_explicit_acodec_unchanged wFmtExplicitNone "none" rfl rfl

end Wwdc
